import Mathlib

/-!
Verification of the circuit-inversion core and the gate adjoint layer of the
repository (pennylane). The gate layer is embedded from
`src/pennylane/ops/qubit.py`; the inversion engine and the operation base class
live in `pennylane/utils.py` / `pennylane/operation.py`, which are not under
`src/`, so those parts are modelled from the spec (and pinned, where the spec
underdetermines them, by the repository's tests in `src/tests/test_utils.py`).
-/

namespace PL

/-- Exact scalar `ra + rb*sqrt 2 + (ia + ib*sqrt 2) * i`: the subfield of the
complex numbers needed for the fixed gate matrices of `pennylane/ops/qubit.py`
(their entries are built from `1/sqrt 2`, `i`, and
`exp (i*pi/4) = sqrt 2 / 2 + i * sqrt 2 / 2`). -/
structure K where
  ra : ℚ
  rb : ℚ
  ia : ℚ
  ib : ℚ
deriving DecidableEq, Repr

def K.zero : K := ⟨0, 0, 0, 0⟩

def K.one : K := ⟨1, 0, 0, 0⟩

/-- The imaginary unit. -/
def K.iu : K := ⟨0, 0, 1, 0⟩

def K.add (x y : K) : K := ⟨x.ra + y.ra, x.rb + y.rb, x.ia + y.ia, x.ib + y.ib⟩

def K.neg (x : K) : K := ⟨-x.ra, -x.rb, -x.ia, -x.ib⟩

/-- Complex conjugation: negate the imaginary components. -/
def K.conj (x : K) : K := ⟨x.ra, x.rb, -x.ia, -x.ib⟩

/-- Multiplication of `(R + I*i) * (R' + I'*i)` with each of `R, I, R', I'` of the
form `a + b * sqrt 2`. -/
def K.mul (x y : K) : K :=
  ⟨x.ra * y.ra + 2 * x.rb * y.rb - (x.ia * y.ia + 2 * x.ib * y.ib),
   x.ra * y.rb + x.rb * y.ra - (x.ia * y.ib + x.ib * y.ia),
   x.ra * y.ia + 2 * x.rb * y.ib + x.ia * y.ra + 2 * x.ib * y.rb,
   x.ra * y.ib + x.rb * y.ia + x.ia * y.rb + x.ib * y.ra⟩

/-- The gate kinds of `pennylane/ops/qubit.py` needed by the claims. -/
inductive GateKind
  | Hadamard
  | PauliX
  | PauliY
  | PauliZ
  | S
  | T
  | SX
  | CNOT
  | CZ
  | CY
  | SWAP
  | CSWAP
  | Toffoli
  | RX
  | RY
  | RZ
  | Rot
  | BasisState
  | QubitStateVector
deriving DecidableEq, Repr

/-- An Operation Value (spec section 3): the gate kind (its `name`), the ordered
`parameters` (field `data`, as on the Python classes), the ordered `wires`, and
the `inverse` flag. Angle parameters are embedded as exact rationals. -/
structure Op where
  kind : GateKind
  data : List ℚ
  wires : List ℕ
  inverse : Bool
deriving DecidableEq, Repr

def Hadamard (wires : List ℕ) : Op := ⟨.Hadamard, [], wires, false⟩

def PauliX (wires : List ℕ) : Op := ⟨.PauliX, [], wires, false⟩

def PauliY (wires : List ℕ) : Op := ⟨.PauliY, [], wires, false⟩

def PauliZ (wires : List ℕ) : Op := ⟨.PauliZ, [], wires, false⟩

def S (wires : List ℕ) : Op := ⟨.S, [], wires, false⟩

def T (wires : List ℕ) : Op := ⟨.T, [], wires, false⟩

def SX (wires : List ℕ) : Op := ⟨.SX, [], wires, false⟩

def CNOT (wires : List ℕ) : Op := ⟨.CNOT, [], wires, false⟩

def CZ (wires : List ℕ) : Op := ⟨.CZ, [], wires, false⟩

def CY (wires : List ℕ) : Op := ⟨.CY, [], wires, false⟩

def SWAP (wires : List ℕ) : Op := ⟨.SWAP, [], wires, false⟩

def CSWAP (wires : List ℕ) : Op := ⟨.CSWAP, [], wires, false⟩

def Toffoli (wires : List ℕ) : Op := ⟨.Toffoli, [], wires, false⟩

def RX (phi : ℚ) (wires : List ℕ) : Op := ⟨.RX, [phi], wires, false⟩

def RY (phi : ℚ) (wires : List ℕ) : Op := ⟨.RY, [phi], wires, false⟩

def RZ (phi : ℚ) (wires : List ℕ) : Op := ⟨.RZ, [phi], wires, false⟩

def Rot (phi theta omega : ℚ) (wires : List ℕ) : Op :=
  ⟨.Rot, [phi, theta, omega], wires, false⟩

def BasisState (n : List ℚ) (wires : List ℕ) : Op := ⟨.BasisState, n, wires, false⟩

def QubitStateVector (state : List ℚ) (wires : List ℕ) : Op :=
  ⟨.QubitStateVector, state, wires, false⟩

/-- Modelled from the spec: `Operation.inv` of the operation base class
(`pennylane/operation.py`, absent from src) produces the inverted-flag-flipped
copy of an Operation Value (spec section 3: an Operation Value is "never mutated
after creation except by producing a new, inverted-flag-flipped copy"). -/
def Op.inv (o : Op) : Op := { o with inverse := !o.inverse }

/-- Error kinds of the operation layer: `AdjointError` (qubit.py line 36, for
non-adjointable operations) and the Python `ValueError`. -/
inductive QErr
  | adjointError (msg : String)
  | valueError (msg : String)
deriving DecidableEq, Repr

/-- The per-kind `adjoint` methods of `pennylane/ops/qubit.py`, as one function
by cases on the kind. Self-inverse gates return a fresh operation of the same
kind on the same wires; `S`, `T` and `SX` return a fresh operation with the
inversion flag toggled on (`S(wires=self.wires).inv()`); rotations negate their
angle(s), `Rot` additionally reversing the angle order; the state preparations
raise `AdjointError`. -/
def Op.adjoint (o : Op) : Except QErr Op :=
  match o.kind with
  | .Hadamard => .ok (Hadamard o.wires)
  | .PauliX => .ok (PauliX o.wires)
  | .PauliY => .ok (PauliY o.wires)
  | .PauliZ => .ok (PauliZ o.wires)
  | .S => .ok (Op.inv (S o.wires))
  | .T => .ok (Op.inv (T o.wires))
  | .SX => .ok (Op.inv (SX o.wires))
  | .CNOT => .ok (CNOT o.wires)
  | .CZ => .ok (CZ o.wires)
  | .CY => .ok (CY o.wires)
  | .SWAP => .ok (SWAP o.wires)
  | .CSWAP => .ok (CSWAP o.wires)
  | .Toffoli => .ok (Toffoli o.wires)
  | .RX => .ok (RX (-o.data.headI) o.wires)
  | .RY => .ok (RY (-o.data.headI) o.wires)
  | .RZ => .ok (RZ (-o.data.headI) o.wires)
  | .Rot =>
    match o.data with
    | [phi, theta, omega] => .ok (Rot (-omega) (-theta) (-phi) o.wires)
    | _ => .error (.valueError "Rot parameters could not be unpacked")
  | .BasisState => .error (.adjointError "No adjoint exists for BasisState operations.")
  | .QubitStateVector =>
    .error (.adjointError "No adjoint exists for QubitStateVector operations.")

/-- A complex matrix as a list of rows over the exact scalar `K`. -/
abbrev Mat := List (List K)

/-- Entrywise complex conjugation (`U.conj()`). -/
def matConj (m : Mat) : Mat := m.map (fun r => r.map K.conj)

/-- Transpose of a rectangular matrix (`U.T`): column `j` collects entry `j` of
every row. -/
def matTranspose (m : Mat) : Mat :=
  (List.range m.headI.length).map (fun j => m.map (fun row => row.getD j K.zero))

/-- Conjugate transpose (`U.conj().T`). -/
def matDagger (m : Mat) : Mat := matTranspose (matConj m)

def dotK (xs ys : List K) : K := (List.zipWith K.mul xs ys).foldl K.add K.zero

/-- Matrix product (`A @ B`). -/
def matMul (A B : Mat) : Mat :=
  A.map (fun row => (matTranspose B).map (fun col => dotK row col))

/-- The identity matrix of size `n` (`np.identity(n)`). -/
def idMat (n : ℕ) : Mat :=
  (List.range n).map (fun i => (List.range n).map (fun j => if i = j then K.one else K.zero))

/-- Squareness of a list-of-rows matrix: every row as long as the row count
(`U.ndim == 2 and U.shape[0] == U.shape[1]` for a rectangular array). -/
def isSquare (m : Mat) : Bool := m.all (fun r => r.length = m.length)

/-- Base matrices of the fixed single-qubit gates, translated from the
`_matrix` classmethods of qubit.py over the exact scalar `K` (with
`1 / sqrt 2 = sqrt 2 / 2` and `exp (i*pi/4) = sqrt 2 / 2 + i * sqrt 2 / 2`).
Matrices of parameterized or multi-wire kinds are not needed by any claim and
are left undefined (`none`). -/
def baseMatrix : GateKind → Option Mat
  | .Hadamard =>
    some [[⟨0, 1/2, 0, 0⟩, ⟨0, 1/2, 0, 0⟩], [⟨0, 1/2, 0, 0⟩, ⟨0, -1/2, 0, 0⟩]]
  | .PauliX => some [[K.zero, K.one], [K.one, K.zero]]
  | .PauliY => some [[K.zero, K.neg K.iu], [K.iu, K.zero]]
  | .PauliZ => some [[K.one, K.zero], [K.zero, K.neg K.one]]
  | .S => some [[K.one, K.zero], [K.zero, K.iu]]
  | .T => some [[K.one, K.zero], [K.zero, ⟨0, 1/2, 0, 1/2⟩]]
  | .SX =>
    some [[⟨1/2, 0, 1/2, 0⟩, ⟨1/2, 0, -1/2, 0⟩], [⟨1/2, 0, -1/2, 0⟩, ⟨1/2, 0, 1/2, 0⟩]]
  | _ => none

/-- Modelled from the spec: the flag-aware `matrix` of an Operation Value (the
base-class matrix logic lives in `pennylane/operation.py`, absent from src) —
"the matrix implementation must check this flag and return the
conjugate-transpose ... when it is set" (spec section 4.1). -/
def Op.matrix (o : Op) : Option Mat :=
  (baseMatrix o.kind).map (fun m => if o.inverse then matDagger m else m)

/-- `QubitUnitary._matrix` (qubit.py lines 1828-1838): reject a non-square
matrix, then reject a non-unitary one (`np.allclose(U @ U.conj().T, identity)`
idealized to exact equality over `K`), else return the matrix. -/
def QubitUnitary_matrix (U : Mat) : Except QErr Mat :=
  if isSquare U then
    if matMul U (matDagger U) = idMat U.length then .ok U
    else .error (.valueError "Operator must be unitary.")
  else .error (.valueError "Operator must be a square matrix.")

/-- `ControlledQubitUnitary._parse_control_values` (qubit.py lines 1943-1958)
for a string argument: length must match the number of control wires, every
character must be binary, and the string is then read as a base-2 integer. -/
def ControlledQubitUnitary_parse_control_values (control_wires : List ℕ)
    (control_values : String) : Except QErr ℕ :=
  if control_values.length = control_wires.length then
    if control_values.data.all (fun c => c == '0' || c == '1') then
      .ok (control_values.data.foldl (fun acc c => 2 * acc + (if c == '1' then 1 else 0)) 0)
    else .error (.valueError "String of control values can contain only 0 or 1.")
  else .error (.valueError "Length of control bit string must equal number of control wires.")

/-- The target-shape check of `ControlledQubitUnitary.__init__` (qubit.py):
`len(U) != 2 ** len(wires)` raises `ValueError`. -/
def ControlledQubitUnitary_checkShape (U : Mat) (wires : List ℕ) : Except QErr Unit :=
  if U.length = 2 ^ wires.length then .ok ()
  else .error (.valueError "Input unitary must be of shape (target_dim, target_dim)")

/-- `PauliRot._check_pauli_word` (qubit.py): every character of the word lies in
the allowed alphabet `IXYZ`. -/
def PauliRot_check_pauli_word (pauli_word : String) : Bool :=
  pauli_word.data.all (fun c => c == 'I' || c == 'X' || c == 'Y' || c == 'Z')

/-- The validation performed by `PauliRot.__init__` (qubit.py lines 1059-1089):
first the allowed-characters check, then the word length against the wire
count. -/
def PauliRot_init_check (pauli_word : String) (wires : List ℕ) : Except QErr Unit :=
  if PauliRot_check_pauli_word pauli_word then
    if pauli_word.length = wires.length then .ok ()
    else .error (.valueError "The given Pauli word has the wrong length for the given wires")
  else
    .error (.valueError
      "The given Pauli word contains characters that are not allowed. Allowed characters are I, X, Y and Z")

/-- Modelled from the spec: the user-distinguishable error kinds of the
Inversion Engine (`InvalidInversionArgument`, spec section 7; the engine
`pennylane/utils.py::inv` is absent from src). The non-operation case carries
the position and printed form of the first offending element ("naming the bad
element"). -/
inductive InvErr
  | noneArg
  | callableArg
  | notIterableArg
  | nonOperationElement (idx : ℕ) (elem : String)
deriving DecidableEq, Repr

/-- Modelled from the spec: an element of an iterable handed to the engine is
either an Operation Value or some other value (kept as its printed form). -/
inductive PyElem
  | op (o : Op)
  | other (s : String)
deriving DecidableEq, Repr

/-- Modelled from the spec: the argument shapes accepted or rejected by the
engine (spec section 4.3 step 1): a single Operation Value, an iterable of
elements, `None`, a bare callable, or a non-iterable value. -/
inductive InvArg
  | operation (o : Op)
  | iterable (xs : List PyElem)
  | noneV
  | callable
  | notIterable (s : String)
deriving DecidableEq, Repr

/-- Modelled from the spec: scan an iterable, failing at the first element that
is not an Operation Value, and otherwise collect the operations in order. -/
def extractOps : List PyElem → ℕ → Except InvErr (List Op)
  | [], _ => .ok []
  | .op o :: rest, i => (extractOps rest (i + 1)).map (fun l => o :: l)
  | .other s :: _, i => .error (.nonOperationElement i s)

/-- Modelled from the spec: step 1 of the Inversion Engine — normalize the
input into an ordered list of Operation Values or fail with the matching
`InvalidInversionArgument` kind. -/
def normalize : InvArg → Except InvErr (List Op)
  | .operation o => .ok [o]
  | .iterable xs => extractOps xs 0
  | .noneV => .error .noneArg
  | .callable => .error .callableArg
  | .notIterable _ => .error .notIterableArg

/-- Modelled from the spec: steps 3 and 4 of the Inversion Engine — reverse the
sequence and invert each element. The spec underdetermines the per-element step
against the repository's tests, which pin it (TestInv in tests/test_utils.py):
each element keeps its parameters and has its inversion flag flipped, exactly as
the expected queues built there with `op.inv()` (their `data` keeps the original
parameter values, e.g. `qml.RX(1, wires=[0]).inv()` with data `(1,)`). -/
def invertSeq (ops : List Op) : List Op := ops.reverse.map Op.inv

/-- Modelled from the spec: step 2 — removal of one already-recorded operation
from the active Recording Context (`QueuingContext.remove`); an element that is
not recorded is ignored. -/
def removeFirst : List Op → Op → List Op
  | [], _ => []
  | x :: xs, o => if x = o then xs else x :: removeFirst xs o

/-- Modelled from the spec: remove each element of `ops`, in original order,
from the context `ctx`. -/
def removeAll (ctx : List Op) (ops : List Op) : List Op := ops.foldl removeFirst ctx

/-- Result of one engine call: the `operations` view handed back to the caller
(or the validation error) and the Recording Context after the call (`none` when
no context is active). -/
structure InvOutcome where
  operations : Except InvErr (List Op)
  context : Option (List Op)
deriving Repr

/-- Modelled from the spec: the Inversion Engine `inv(input)` of spec section
4.3, against an optional active Recording Context: validate and normalize the
whole input first — a failure leaves the context untouched — then remove the
already-recorded originals from the context and splice the inverted block in at
their position (the context's tail, since the originals are the most recently
recorded operations at the time of the call). -/
def inv (arg : InvArg) (ctx : Option (List Op)) : InvOutcome :=
  match normalize arg with
  | .error e => ⟨.error e, ctx⟩
  | .ok ops => ⟨.ok (invertSeq ops), ctx.map (fun q => removeAll q ops ++ invertSeq ops)⟩

/-- Modelled from the spec: one step of circuit construction inside an active
Recording Context. `gate` constructs an operation, which records it (spec
section 3 lifecycle); `invCall arg queuedNow` calls the engine on `arg` right
after the operations `queuedNow` were constructed — and hence recorded — while
building the argument (operations of the argument constructed before the
context opened contribute nothing to `queuedNow`). -/
inductive Stmt
  | gate (o : Op)
  | invCall (arg : List PyElem) (queuedNow : List Op)

/-- Modelled from the spec: the effect of one construction step on the recorded
queue. A failed engine call leaves the queue as it stood after the argument's
own constructions. -/
def step (q : List Op) : Stmt → List Op
  | .gate o => q ++ [o]
  | .invCall arg queuedNow =>
    ((inv (.iterable arg) (some (q ++ queuedNow))).context).getD (q ++ queuedNow)

/-- Modelled from the spec: run a recording scope from an empty queue and
return the final recorded list of Operation Values. -/
def runStmts (stmts : List Stmt) : List Op := stmts.foldl step []

/-- An engine call whose argument operations were all constructed inside the
context, immediately before the call. -/
def invNew (ops : List Op) : Stmt := .invCall (ops.map PyElem.op) ops

/-- An engine call whose argument operations were all constructed before the
context opened. -/
def invExt (ops : List Op) : Stmt := .invCall (ops.map PyElem.op) []

/-- The operations of a mixed inversion block, each paired with whether it was
constructed (and hence recorded) inside the context. -/
def blockOps (bl : List (Op × Bool)) : List Op := bl.map Prod.fst

/-- The sub-sequence of a mixed inversion block that was constructed inside the
context, in construction order. -/
def blockNew (bl : List (Op × Bool)) : List Op := (bl.filter (fun p => p.2)).map Prod.fst

/-- An engine call on a mixed block: some argument operations recorded inside
the context, the rest constructed outside (test_mixed_inversion_with_context). -/
def invMixed (bl : List (Op × Bool)) : Stmt := .invCall ((blockOps bl).map PyElem.op) (blockNew bl)

/-- The recorded scenario of claim C4 (test_non_queued_inversion_with_context,
restricted to the two rotations named by the claim): Hadamard and CNOT
recorded, `inv` called on externally constructed `[RX(1, 0), RY(2, 0)]`, then
CNOT and Hadamard recorded. -/
def c4Trace : List Stmt :=
  [.gate (Hadamard [0]), .gate (CNOT [0, 1]), invExt [RX 1 [0], RY 2 [0]],
   .gate (CNOT [0, 1]), .gate (Hadamard [0])]

/-- Whether an engine result is a success. -/
def isOkE {α : Type} (e : Except InvErr α) : Bool :=
  match e with
  | .ok _ => true
  | .error _ => false

end PL

deriving instance DecidableEq for Except

/-- C6: the adjoint of a parameterized rotation negates its angle(s), with
argument reordering for the three-angle rotation: `RX(phi).adjoint()` is
`RX(-phi)` on the same wires, and `Rot(phi, theta, omega).adjoint()` is
`Rot(-omega, -theta, -phi)` on the same wires (qubit.py, `RX.adjoint` lines
669-670 and `Rot.adjoint` lines 920-922). -/
theorem C6_rotation_adjoint_negates (phi theta omega : ℚ) (ws : List ℕ) :
    (PL.RX phi ws).adjoint = .ok (PL.RX (-phi) ws) ∧
    (PL.Rot phi theta omega ws).adjoint = .ok (PL.Rot (-omega) (-theta) (-phi) ws) :=
  ⟨rfl, rfl⟩

/-- C8: requesting the adjoint of a state-preparation operation always fails
with the `AdjointError` kind (qubit.py lines 2380-2381 and 2414-2415), for every
parameter list, wire list and flag value, and no operation value is returned. -/
theorem C8_state_preparation_not_adjointable (d : List ℚ) (ws : List ℕ) (b : Bool) :
    PL.Op.adjoint ⟨.BasisState, d, ws, b⟩ =
      .error (.adjointError "No adjoint exists for BasisState operations.") ∧
    PL.Op.adjoint ⟨.QubitStateVector, d, ws, b⟩ =
      .error (.adjointError "No adjoint exists for QubitStateVector operations.") :=
  ⟨rfl, rfl⟩

/-- C10: for every self-inverse fixed gate (Hadamard, PauliX, PauliY, PauliZ,
CNOT, CZ, CY, SWAP, CSWAP, Toffoli), `adjoint()` returns a fresh operation of
the same kind on the same wires with the inversion flag not set, regardless of
the flag on the receiver (no flag toggling; qubit.py, each class's `adjoint`
returns a fresh construction on `self.wires`). -/
theorem C10_self_inverse_adjoint (d : List ℚ) (ws : List ℕ) (b : Bool) :
    PL.Op.adjoint ⟨.Hadamard, d, ws, b⟩ = .ok ⟨.Hadamard, [], ws, false⟩ ∧
    PL.Op.adjoint ⟨.PauliX, d, ws, b⟩ = .ok ⟨.PauliX, [], ws, false⟩ ∧
    PL.Op.adjoint ⟨.PauliY, d, ws, b⟩ = .ok ⟨.PauliY, [], ws, false⟩ ∧
    PL.Op.adjoint ⟨.PauliZ, d, ws, b⟩ = .ok ⟨.PauliZ, [], ws, false⟩ ∧
    PL.Op.adjoint ⟨.CNOT, d, ws, b⟩ = .ok ⟨.CNOT, [], ws, false⟩ ∧
    PL.Op.adjoint ⟨.CZ, d, ws, b⟩ = .ok ⟨.CZ, [], ws, false⟩ ∧
    PL.Op.adjoint ⟨.CY, d, ws, b⟩ = .ok ⟨.CY, [], ws, false⟩ ∧
    PL.Op.adjoint ⟨.SWAP, d, ws, b⟩ = .ok ⟨.SWAP, [], ws, false⟩ ∧
    PL.Op.adjoint ⟨.CSWAP, d, ws, b⟩ = .ok ⟨.CSWAP, [], ws, false⟩ ∧
    PL.Op.adjoint ⟨.Toffoli, d, ws, b⟩ = .ok ⟨.Toffoli, [], ws, false⟩ :=
  ⟨rfl, rfl, rfl, rfl, rfl, rfl, rfl, rfl, rfl, rfl⟩

/-- C7: for the fixed non-self-adjoint gates `S`, `T` and `SX`, `adjoint()`
returns an operation of the same kind, wires and (empty) parameters with the
inversion flag set and no parameter transformation (qubit.py,
`S(wires=self.wires).inv()` and likewise for `T` and `SX`); the matrix of such a
flag-set operation is the conjugate transpose of the base matrix (which for the
diagonal gate `S` coincides with the entrywise conjugate); in particular
`S(wire=0).adjoint()` carries the flag and its matrix is `[[1, 0], [0, -i]]`. -/
theorem C7_phase_gate_adjoint_flag_and_matrix (ws : List ℕ) :
    (PL.S ws).adjoint = .ok ⟨.S, [], ws, true⟩ ∧
    (PL.T ws).adjoint = .ok ⟨.T, [], ws, true⟩ ∧
    (PL.SX ws).adjoint = .ok ⟨.SX, [], ws, true⟩ ∧
    PL.Op.matrix ⟨.S, [], ws, true⟩ = (PL.baseMatrix .S).map PL.matDagger ∧
    PL.Op.matrix ⟨.T, [], ws, true⟩ = (PL.baseMatrix .T).map PL.matDagger ∧
    PL.Op.matrix ⟨.SX, [], ws, true⟩ = (PL.baseMatrix .SX).map PL.matDagger ∧
    PL.matDagger [[PL.K.one, PL.K.zero], [PL.K.zero, PL.K.iu]] =
      PL.matConj [[PL.K.one, PL.K.zero], [PL.K.zero, PL.K.iu]] ∧
    (PL.S [0]).adjoint = .ok ((PL.S [0]).inv) ∧
    ((PL.S [0]).inv).inverse = true ∧
    ((PL.S [0]).inv).matrix =
      some [[PL.K.one, PL.K.zero], [PL.K.zero, PL.K.neg PL.K.iu]] :=
  ⟨rfl, rfl, rfl, rfl, rfl, rfl, rfl, rfl, rfl, rfl⟩

/-- C9: the malformed-input validations of operation construction and matrix
retrieval fail with `ValueError`-kind errors exactly in the malformed cases: a
non-square or non-unitary matrix for `QubitUnitary._matrix`, a wrong-size
matrix for the declared wire count of `ControlledQubitUnitary`, a control-value
bit string of the wrong length or with non-binary characters, and a Pauli word
with characters outside `IXYZ` or whose length differs from the wire count. -/
theorem C9_construction_validation :
    (∀ U : PL.Mat, (∃ M, PL.QubitUnitary_matrix U = .ok M) ↔
      (PL.isSquare U = true ∧ PL.matMul U (PL.matDagger U) = PL.idMat U.length)) ∧
    (∀ (cw : List ℕ) (cv : String),
      (∃ n, PL.ControlledQubitUnitary_parse_control_values cw cv = .ok n) ↔
      (cv.length = cw.length ∧ ∀ c ∈ cv.data, c = '0' ∨ c = '1')) ∧
    (∀ (U : PL.Mat) (ws : List ℕ),
      PL.ControlledQubitUnitary_checkShape U ws = .ok () ↔ U.length = 2 ^ ws.length) ∧
    (∀ (pw : String) (ws : List ℕ),
      PL.PauliRot_init_check pw ws = .ok () ↔
      ((∀ c ∈ pw.data, c = 'I' ∨ c = 'X' ∨ c = 'Y' ∨ c = 'Z') ∧ pw.length = ws.length)) ∧
    PL.QubitUnitary_matrix [[PL.K.one, PL.K.one], [PL.K.zero, PL.K.one]] =
      .error (.valueError "Operator must be unitary.") ∧
    PL.QubitUnitary_matrix [[PL.K.one, PL.K.zero]] =
      .error (.valueError "Operator must be a square matrix.") ∧
    PL.ControlledQubitUnitary_parse_control_values [0, 1] "1" =
      .error (.valueError "Length of control bit string must equal number of control wires.") ∧
    PL.ControlledQubitUnitary_parse_control_values [0, 1] "12" =
      .error (.valueError "String of control values can contain only 0 or 1.") ∧
    PL.PauliRot_init_check "XA" [0, 1] =
      .error (.valueError
        "The given Pauli word contains characters that are not allowed. Allowed characters are I, X, Y and Z") ∧
    PL.PauliRot_init_check "XYZ" [0, 1] =
      .error (.valueError "The given Pauli word has the wrong length for the given wires") := by
  refine ⟨?_, ?_, ?_, ?_, ?_, ?_, by decide, by decide, by decide, by decide⟩
  · intro U
    constructor
    · rintro ⟨M, hM⟩
      unfold PL.QubitUnitary_matrix at hM
      split_ifs at hM with h1 h2
      · exact ⟨h1, h2⟩
    · rintro ⟨h1, h2⟩
      exact ⟨U, by simp [PL.QubitUnitary_matrix, h1, h2]⟩
  · intro cw cv
    constructor
    · rintro ⟨n, hn⟩
      unfold PL.ControlledQubitUnitary_parse_control_values at hn
      split_ifs at hn with h1 h2
      refine ⟨h1, ?_⟩
      intro c hc
      have := List.all_eq_true.mp h2 c hc
      simpa using this
    · rintro ⟨h1, h2⟩
      have hall : cv.data.all (fun c => c == '0' || c == '1') = true := by
        refine List.all_eq_true.mpr ?_
        intro c hc
        simpa using h2 c hc
      exact ⟨cv.data.foldl (fun acc c => 2 * acc + (if c == '1' then 1 else 0)) 0,
        by simp [PL.ControlledQubitUnitary_parse_control_values, h1, hall]⟩
  · intro U ws
    constructor
    · intro h
      unfold PL.ControlledQubitUnitary_checkShape at h
      split_ifs at h with h1
      exact h1
    · intro h
      simp [PL.ControlledQubitUnitary_checkShape, h]
  · intro pw ws
    constructor
    · intro h
      unfold PL.PauliRot_init_check at h
      split_ifs at h with h1 h2
      refine ⟨?_, h2⟩
      intro c hc
      have := List.all_eq_true.mp h1 c hc
      simpa [or_assoc] using this
    · rintro ⟨h1, h2⟩
      have hall : PL.PauliRot_check_pauli_word pw = true := by
        refine List.all_eq_true.mpr ?_
        intro c hc
        simpa [or_assoc] using h1 c hc
      simp [PL.PauliRot_init_check, hall, h2]
  · norm_num [PL.QubitUnitary_matrix, PL.isSquare, PL.matMul, PL.matDagger, PL.matConj,
      PL.matTranspose, PL.idMat, PL.dotK, PL.K.mul, PL.K.add, PL.K.conj, PL.K.zero,
      PL.K.one, List.range_succ, PL.K.mk.injEq]
  · norm_num [PL.QubitUnitary_matrix, PL.isSquare]

lemma extractOps_ok (l : List PL.Op) (i : ℕ) :
    PL.extractOps (l.map PL.PyElem.op) i = .ok l := by
  induction l generalizing i with
  | nil => rfl
  | cons a t ih => simp [PL.extractOps, ih, Except.map]

lemma normalize_ok (l : List PL.Op) :
    PL.normalize (.iterable (l.map PL.PyElem.op)) = .ok l := by
  simp [PL.normalize, extractOps_ok]

lemma inv_ok (l : List PL.Op) (ctx : Option (List PL.Op)) :
    PL.inv (.iterable (l.map PL.PyElem.op)) ctx =
      ⟨.ok (PL.invertSeq l), ctx.map (fun q => PL.removeAll q l ++ PL.invertSeq l)⟩ := by
  simp [PL.inv, normalize_ok]

lemma op_inv_inv (o : PL.Op) : o.inv.inv = o := by
  cases o with
  | mk k d w b => simp [PL.Op.inv]

lemma invertSeq_invertSeq (l : List PL.Op) : PL.invertSeq (PL.invertSeq l) = l := by
  simp [PL.invertSeq, List.map_reverse, List.map_map, Function.comp_def, op_inv_inv]

lemma foldl_step_gates (l : List PL.Op) : ∀ q : List PL.Op,
    List.foldl PL.step q (l.map PL.Stmt.gate) = q ++ l := by
  induction l with
  | nil => intro q; simp
  | cons a t ih => intro q; simp [PL.step, ih]

lemma removeFirst_not_mem (q : List PL.Op) (o : PL.Op) (h : o ∉ q) :
    PL.removeFirst q o = q := by
  induction q with
  | nil => rfl
  | cons x xs ih =>
    have hxo : x ≠ o := by rintro rfl; exact h (List.mem_cons_self _ _)
    simp only [PL.removeFirst]
    rw [if_neg hxo, ih (fun hm => h (List.mem_cons_of_mem _ hm))]

lemma removeFirst_append_of_not_mem (pre : List PL.Op) (b : PL.Op) (rest : List PL.Op)
    (h : b ∉ pre) : PL.removeFirst (pre ++ b :: rest) b = pre ++ rest := by
  induction pre with
  | nil => simp [PL.removeFirst]
  | cons a t ih =>
    have hab : a ≠ b := by rintro rfl; exact h (List.mem_cons_self _ _)
    simp only [List.cons_append, PL.removeFirst]
    rw [if_neg hab, show t.append (b :: rest) = t ++ b :: rest from rfl,
      ih (fun hm => h (List.mem_cons_of_mem _ hm))]

lemma blockNew_cons_false (o : PL.Op) (rest : List (PL.Op × Bool)) :
    PL.blockNew ((o, false) :: rest) = PL.blockNew rest := by
  simp [PL.blockNew]

lemma blockNew_cons_true (o : PL.Op) (rest : List (PL.Op × Bool)) :
    PL.blockNew ((o, true) :: rest) = o :: PL.blockNew rest := by
  simp [PL.blockNew]

lemma removeAll_mixed : ∀ (bl : List (PL.Op × Bool)) (pre : List PL.Op),
    (∀ p ∈ bl, p.1 ∉ pre) →
    (∀ p ∈ bl, p.2 = false → p.1 ∉ PL.blockNew bl) →
    PL.removeAll (pre ++ PL.blockNew bl) (PL.blockOps bl) = pre := by
  intro bl
  induction bl with
  | nil => intro pre _ _; simp [PL.removeAll, PL.blockNew, PL.blockOps]
  | cons p rest ih =>
    intro pre hpre hnew
    obtain ⟨o, flag⟩ := p
    have hops : PL.blockOps ((o, flag) :: rest) = o :: PL.blockOps rest := by
      simp [PL.blockOps]
    have hrest_pre : ∀ p ∈ rest, p.1 ∉ pre :=
      fun p hp => hpre p (List.mem_cons_of_mem _ hp)
    cases flag with
    | false =>
      have honotin : o ∉ pre ++ PL.blockNew rest := by
        intro hm
        rcases List.mem_append.mp hm with hm1 | hm2
        · exact hpre (o, false) (List.mem_cons_self _ _) hm1
        · have := hnew (o, false) (List.mem_cons_self _ _) rfl
          rw [blockNew_cons_false] at this
          exact this hm2
      have hrest_new : ∀ p ∈ rest, p.2 = false → p.1 ∉ PL.blockNew rest := by
        intro p hp hpf
        have := hnew p (List.mem_cons_of_mem _ hp) hpf
        rwa [blockNew_cons_false] at this
      calc PL.removeAll (pre ++ PL.blockNew ((o, false) :: rest)) (PL.blockOps ((o, false) :: rest))
          = PL.removeAll (PL.removeFirst (pre ++ PL.blockNew rest) o) (PL.blockOps rest) := by
            rw [blockNew_cons_false, hops]; rfl
        _ = PL.removeAll (pre ++ PL.blockNew rest) (PL.blockOps rest) := by
            rw [removeFirst_not_mem _ _ honotin]
        _ = pre := ih pre hrest_pre hrest_new
    | true =>
      have ho : o ∉ pre := hpre (o, true) (List.mem_cons_self _ _)
      have hrest_new : ∀ p ∈ rest, p.2 = false → p.1 ∉ PL.blockNew rest := by
        intro p hp hpf
        have := hnew p (List.mem_cons_of_mem _ hp) hpf
        rw [blockNew_cons_true] at this
        exact fun hm => this (List.mem_cons_of_mem _ hm)
      calc PL.removeAll (pre ++ PL.blockNew ((o, true) :: rest)) (PL.blockOps ((o, true) :: rest))
          = PL.removeAll (PL.removeFirst (pre ++ o :: PL.blockNew rest) o) (PL.blockOps rest) := by
            rw [blockNew_cons_true, hops]; rfl
        _ = PL.removeAll (pre ++ PL.blockNew rest) (PL.blockOps rest) := by
            rw [removeFirst_append_of_not_mem _ _ _ ho]
        _ = pre := ih pre hrest_pre hrest_new

lemma step_invCall (q ops queuedNow : List PL.Op) :
    PL.step q (.invCall (ops.map PL.PyElem.op) queuedNow) =
      PL.removeAll (q ++ queuedNow) ops ++ PL.invertSeq ops := by
  simp [PL.step, inv_ok]

/-- C1: for every ordered sequence of Operation Values `[A, B, C]` passed to the
inversion engine, the resulting operations view is the reversed sequence with
each element individually inverted, `[inv C, inv B, inv A]` (and likewise for a
sequence of any length); the reversal is of sequence order only — inverting an
element never changes its wires (nor its parameters). -/
theorem C1_inversion_reverses_and_inverts (A B C : PL.Op) (ctx : Option (List PL.Op)) :
    (PL.inv (.iterable [.op A, .op B, .op C]) ctx).operations =
      .ok [C.inv, B.inv, A.inv] ∧
    (∀ l : List PL.Op,
      (PL.inv (.iterable (l.map PL.PyElem.op)) ctx).operations =
        .ok (l.reverse.map PL.Op.inv)) ∧
    (∀ o : PL.Op, o.inv.wires = o.wires ∧ o.inv.data = o.data) := by
  refine ⟨rfl, ?_, fun o => ⟨rfl, rfl⟩⟩
  intro l
  rw [inv_ok]
  rfl

/-- C2: when the engine is called inside an active Recording Context on a block
of operations, every element of the block that was already recorded in the
context is removed and the inverted block is spliced in at that position, while
every operation recorded before the call and every operation recorded after it
is left unchanged and in its original order (elements of the block constructed
outside the context are simply inverted and spliced with the rest). -/
theorem C2_inversion_splices_in_context (pre post : List PL.Op) (bl : List (PL.Op × Bool))
    (hpre : ∀ p ∈ bl, p.1 ∉ pre)
    (hnew : ∀ p ∈ bl, p.2 = false → p.1 ∉ PL.blockNew bl) :
    PL.runStmts (pre.map PL.Stmt.gate ++ PL.invMixed bl :: post.map PL.Stmt.gate) =
      pre ++ PL.invertSeq (PL.blockOps bl) ++ post := by
  unfold PL.runStmts
  rw [List.foldl_append, foldl_step_gates]
  simp only [List.nil_append, List.foldl_cons]
  rw [show PL.invMixed bl = .invCall ((PL.blockOps bl).map PL.PyElem.op) (PL.blockNew bl)
      from rfl,
    step_invCall, removeAll_mixed bl pre hpre hnew, foldl_step_gates, List.append_assoc]

/-- Witness for C2 at the recorded scenario of test_mixed_inversion_with_context:
Hadamard and CNOT recorded, then `inv` on the mixed block
`[X0 (external), RX(1,0) (recorded), Z0 (external), RY(2,0) (recorded)]`,
then CNOT and Hadamard recorded. -/
theorem C2_inversion_splices_in_context_witness :
    ((∀ p ∈ [(PL.PauliX [0], false), (PL.RX 1 [0], true), (PL.PauliZ [0], false),
        (PL.RY 2 [0], true)], p.1 ∉ [PL.Hadamard [0], PL.CNOT [0, 1]]) ∧
      (∀ p ∈ [(PL.PauliX [0], false), (PL.RX 1 [0], true), (PL.PauliZ [0], false),
        (PL.RY 2 [0], true)], p.2 = false →
        p.1 ∉ PL.blockNew [(PL.PauliX [0], false), (PL.RX 1 [0], true), (PL.PauliZ [0], false),
          (PL.RY 2 [0], true)])) ∧
    PL.runStmts ([PL.Hadamard [0], PL.CNOT [0, 1]].map PL.Stmt.gate ++
        PL.invMixed [(PL.PauliX [0], false), (PL.RX 1 [0], true), (PL.PauliZ [0], false),
          (PL.RY 2 [0], true)] ::
        [PL.CNOT [0, 1], PL.Hadamard [0]].map PL.Stmt.gate) =
      [PL.Hadamard [0], PL.CNOT [0, 1]] ++
        PL.invertSeq (PL.blockOps [(PL.PauliX [0], false), (PL.RX 1 [0], true),
          (PL.PauliZ [0], false), (PL.RY 2 [0], true)]) ++
        [PL.CNOT [0, 1], PL.Hadamard [0]] :=
  ⟨⟨by decide, by decide⟩,
    C2_inversion_splices_in_context _ _ _ (by decide) (by decide)⟩

/-- C3: double inversion is the identity — for every sequence of Operation
Values, inverting the inverted sequence restores the original sequence exactly
(same name, wires, parameters, and flags), both as the pure sequence operation
and through the engine's operations view, and flipping one operation's flag
twice restores the operation. -/
theorem C3_double_inversion_identity (l : List PL.Op) :
    PL.invertSeq (PL.invertSeq l) = l ∧
    (PL.inv (.iterable ((PL.invertSeq l).map PL.PyElem.op)) none).operations = .ok l ∧
    ∀ o : PL.Op, o.inv.inv = o := by
  refine ⟨invertSeq_invertSeq l, ?_, op_inv_inv⟩
  rw [inv_ok]
  simp [invertSeq_invertSeq]

/-- C4, counterexample: in the recorded scenario of the claim (Hadamard and
CNOT, then `inv([RX(1,0), RY(2,0)])`, then CNOT and Hadamard), the final
recorded list is NOT the claimed one whose spliced elements carry negated
parameters (`RY(-2,0)` and `RX(-1,0)` with the flag set): the repository's test
pins that the spliced elements keep `data` `(2,)` and `(1,)`. -/
theorem C4_negated_parameters_counterexample :
    PL.runStmts PL.c4Trace ≠
      [PL.Hadamard [0], PL.CNOT [0, 1], (PL.RY (-2) [0]).inv, (PL.RX (-1) [0]).inv,
        PL.CNOT [0, 1], PL.Hadamard [0]] := by decide

/-- C4, amended: in that scenario the final recorded list is exactly
`[H(0), CNOT([0,1]), RY(2,0) flag set, RX(1,0) flag set, CNOT([0,1]), H(0)]` —
the spliced inverted elements keep their original parameters and carry the
inversion flag (matching test_non_queued_inversion_with_context, which builds
the expected queue with `qml.RY(2, wires=[0]).inv()` etc.). -/
theorem C4_splice_scenario_amended :
    PL.runStmts PL.c4Trace =
      [PL.Hadamard [0], PL.CNOT [0, 1], (PL.RY 2 [0]).inv, (PL.RX 1 [0]).inv,
        PL.CNOT [0, 1], PL.Hadamard [0]] := by decide

/-- C5: `inv(None)` fails with the None-argument error kind, `inv` of an
uninvoked bare function with the distinct callable error kind, `inv` of a
sequence with a non-operation element with the error kind naming that element,
and `inv` of a non-iterable with the non-iterable error kind; the four kinds are
pairwise distinct, and every failing call leaves the active Recording Context
exactly as it was. -/
theorem C5_invalid_arguments_and_no_mutation :
    (∀ ctx, PL.inv .noneV ctx = ⟨.error .noneArg, ctx⟩) ∧
    (∀ ctx, PL.inv .callable ctx = ⟨.error .callableArg, ctx⟩) ∧
    (∀ ctx s, PL.inv (.notIterable s) ctx = ⟨.error .notIterableArg, ctx⟩) ∧
    (∀ ctx (o : PL.Op) (s : String),
      PL.inv (.iterable [.op o, .other s]) ctx = ⟨.error (.nonOperationElement 1 s), ctx⟩) ∧
    (PL.InvErr.noneArg ≠ .callableArg ∧ PL.InvErr.noneArg ≠ .notIterableArg ∧
      PL.InvErr.callableArg ≠ .notIterableArg ∧
      ∀ i s, PL.InvErr.nonOperationElement i s ≠ .noneArg ∧
        PL.InvErr.nonOperationElement i s ≠ .callableArg ∧
        PL.InvErr.nonOperationElement i s ≠ .notIterableArg) ∧
    (∀ arg ctx, PL.isOkE (PL.inv arg ctx).operations = false → (PL.inv arg ctx).context = ctx) := by
  refine ⟨fun ctx => rfl, fun ctx => rfl, fun ctx s => rfl, fun ctx o s => rfl,
    ⟨by simp, by simp, by simp, fun i s => ⟨by simp, by simp, by simp⟩⟩, ?_⟩
  intro arg ctx h
  rcases hn : PL.normalize arg with e | ops
  · simp [PL.inv, hn]
  · rw [PL.inv, hn] at h
    simp [PL.isOkE] at h

/-- Witness for C5: the concrete failing call `inv(None)` against the context
`[Hadamard(0)]` fails and leaves that context unchanged. -/
theorem C5_invalid_arguments_and_no_mutation_witness :
    PL.isOkE (PL.inv .noneV (some [PL.Hadamard [0]])).operations = false ∧
    (PL.inv .noneV (some [PL.Hadamard [0]])).context = some [PL.Hadamard [0]] :=
  ⟨by decide,
    C5_invalid_arguments_and_no_mutation.2.2.2.2.2 .noneV (some [PL.Hadamard [0]]) (by decide)⟩
